import Mathlib

/-!
A verification development for the jsluice JavaScript analyzer.

The Go sources are shallowly embedded: Go strings become `List Char`
(the Go code indexes by bytes but only ever stops at rune boundaries,
so rune-level lists are observation-equivalent), Go slices become
lists, fallible operations return `Option`, and the two places where
the code ranges over a Go map are parameterized by an iteration-order
function constrained to enumerate the map's key set.
-/

namespace Jsluice

/-- Chars of a Lean string literal, used to write fixtures. -/
def lc (s : String) : List Char := s.toList

/-- Go strings.ContainsAny: does s contain any rune of the cutset? -/
def containsAny (s cutset : List Char) : Bool :=
  s.any (fun c => cutset.contains c)

/-- Go strings.Trim: remove all leading and trailing runes that are in
the cutset. -/
def goTrim (cut : List Char) (s : List Char) : List Char :=
  ((s.dropWhile (fun c => cut.contains c)).reverse.dropWhile
    (fun c => cut.contains c)).reverse

/-- The quote characters: single quote, double quote, backtick. -/
def quoteChars : List Char := [Char.ofNat 39, Char.ofNat 34, Char.ofNat 96]

/-- tree.go dequote: removes surrounding quotes from the provided string. -/
def dequote (s : List Char) : List Char := goTrim quoteChars s

/-- Go strings.HasPrefix on rune lists. -/
def startsWithL (p s : List Char) : Bool := p.isPrefixOf s

/-- Go strings.ToLower (the inputs in this development are ASCII). -/
def lowerStr (s : List Char) : List Char := s.map Char.toLower

/-! ## String decoder (strings.go) -/

/-- strings.go itemType. -/
inductive ItemType where
  | string
  | singleEscape
  | hexEscape
  | octalEscape
  | unicodeEscape
  | codepointEscape
deriving DecidableEq

/-- strings.go item: a token in a JavaScript string. -/
structure Item where
  typ : ItemType
  val : List Char
deriving DecidableEq

/-- Value of one digit character, as strconv understands digits for
bases up to 16. -/
def digitVal (c : Char) : Option Nat :=
  if ('0' ≤ c ∧ c ≤ '9') then some (c.toNat - 48)
  else if ('a' ≤ c ∧ c ≤ 'f') then some (c.toNat - 97 + 10)
  else if ('A' ≤ c ∧ c ≤ 'F') then some (c.toNat - 65 + 10)
  else none

/-- Go strconv.ParseInt(s, base, 0) on a 64-bit platform, restricted to
unsigned digit strings (the lexer only produces those): empty input,
a digit not below the base, or a value above 2^63 - 1 is an error. -/
def goParseInt (base : Nat) (s : List Char) : Option Nat :=
  if s.isEmpty then none
  else
    let step := fun (acc : Option Nat) (c : Char) =>
      match acc, digitVal c with
      | some n, some d => if d < base then some (base * n + d) else none
      | _, _ => none
    match s.foldl step (some 0) with
    | some n => if n ≤ 2 ^ 63 - 1 then some n else none
    | none => none

/-- Go `string(rune(num))` where num was parsed into a 64-bit int: the
conversion to rune truncates to a signed 32-bit value, and anything that
is not a valid non-surrogate code point encodes as U+FFFD. -/
def runeString (n : Nat) : List Char :=
  let m : Nat := n % 2 ^ 32
  let r : Int := if m < 2 ^ 31 then (m : Int) else (m : Int) - 2 ^ 32
  if 0 ≤ r ∧ r ≤ 0x10FFFF ∧ ¬(0xD800 ≤ r ∧ r ≤ 0xDFFF) then
    [Char.ofNat r.toNat]
  else
    [Char.ofNat 0xFFFD]

/-- The fixed single-character escape map of item.String. -/
def singleEscapes : List (List Char × List Char) :=
  [(lc "b", [Char.ofNat 8]), (lc "f", [Char.ofNat 12]),
   (lc "n", [Char.ofNat 10]), (lc "r", [Char.ofNat 13]),
   (lc "t", [Char.ofNat 9]), (lc "v", [Char.ofNat 11])]

/-- strings.go item.String: the decoded text of one token. Hex, unicode
and codepoint escapes parse base 16; octal parses base 8; a parse error
falls back to the raw matched text. -/
def itemStr (i : Item) : List Char :=
  match i.typ with
  | .string => i.val
  | .singleEscape =>
    match singleEscapes.find? (fun p => p.1 = i.val) with
    | some p => p.2
    | none => i.val
  | .hexEscape | .unicodeEscape | .codepointEscape =>
    match goParseInt 16 i.val with
    | some n => runeString n
    | none => i.val
  | .octalEscape =>
    match goParseInt 8 i.val with
    | some n => runeString n
    | none => i.val

/-- strings.go stringLexer: the state needed to lex a string.
Byte positions are modelled as rune indices (the Go code only ever
positions the cursor at rune boundaries). -/
structure SLex where
  str : List Char
  start : Nat
  pos : Nat
  items : List Item
  done : Bool
deriving DecidableEq

/-- stringLexer.Next: none models Go's -1 at end of input. -/
def SLex.next (s : SLex) : Option Char × SLex :=
  match s.str.get? s.pos with
  | none => (none, { s with done := true })
  | some c => (some c, { s with pos := s.pos + 1 })

/-- stringLexer.Backup. -/
def SLex.backup (s : SLex) : SLex :=
  if s.done ∨ s.pos ≤ 0 then s else { s with pos := s.pos - 1 }

/-- stringLexer.Peek. Note that peeking at end of input sets the done
flag permanently, as in the Go code. -/
def SLex.peek (s : SLex) : Option Char × SLex :=
  let (c, s1) := s.next
  (c, s1.backup)

/-- stringLexer.Emit. -/
def SLex.emit (s : SLex) (t : ItemType) : SLex :=
  { s with
    items := s.items ++ [⟨t, (s.str.drop s.start).take (s.pos - s.start)⟩]
    start := s.pos }

/-- stringLexer.Ignore. -/
def SLex.ignore (s : SLex) : SLex := { s with start := s.pos }

/-- stringLexer.Accept. -/
def SLex.accept (s : SLex) (valid : List Char) : Bool × SLex :=
  let (c, s1) := s.next
  match c with
  | some c => if valid.contains c then (true, s1) else (false, s1.backup)
  | none => (false, s1.backup)

/-- Loop of stringLexer.AcceptN: try to accept n runes, counting
successes (failures still run, as in the Go for loop). -/
def acceptNGo (valid : List Char) : Nat → Nat → SLex → Nat × SLex
  | 0, count, s => (count, s)
  | m + 1, count, s =>
    let (ok, s1) := s.accept valid
    acceptNGo valid m (if ok then count + 1 else count) s1

/-- stringLexer.AcceptN. -/
def SLex.acceptN (s : SLex) (valid : List Char) (n : Nat) : Bool × SLex :=
  let (count, s1) := acceptNGo valid n 0 s
  (count = n, s1)

/-- Loop of stringLexer.AcceptUntil. Each iteration advances the
position or sets the done flag, and the position never exceeds the
input length, so fuel str.length + 1 never runs out. -/
def acceptUntilGo (r : Char) : Nat → SLex → SLex
  | 0, s => s
  | fuel + 1, s =>
    let (c, s1) := s.next
    if c ≠ some r ∧ ¬s1.done then acceptUntilGo r fuel s1 else s1

/-- stringLexer.AcceptUntil. -/
def SLex.acceptUntil (s : SLex) (r : Char) : SLex :=
  (acceptUntilGo r (s.str.length + 1) s).backup

/-- Loop of stringLexer.AcceptRun (same fuel argument as AcceptUntil). -/
def acceptRunGo (valid : List Char) : Nat → SLex → SLex
  | 0, s => s
  | fuel + 1, s =>
    let (c, s1) := s.next
    match c with
    | some c => if valid.contains c then acceptRunGo valid fuel s1 else s1
    | none => s1

/-- stringLexer.AcceptRun. -/
def SLex.acceptRun (s : SLex) (valid : List Char) : SLex :=
  (acceptRunGo valid (s.str.length + 1) s).backup

/-- The valid hex digits of DecodeString. -/
def validHex : List Char := lc "0123456789abcdefABCDEF"

/-- The single-character escape selectors of DecodeString's switch:
b f n r t v, single quote, double quote, backslash. -/
def singleSelectors : List Char :=
  'b' :: 'f' :: 'n' :: 'r' :: 't' :: 'v' ::
    Char.ofNat 39 :: Char.ofNat 34 :: Char.ofNat 92 :: []

/-- unicode.IsDigit on the rune returned by Peek (ASCII decimal digits;
none models -1). -/
def isDigitOpt : Option Char → Bool
  | some c => decide ('0' ≤ c ∧ c ≤ '9')
  | none => false

/-- The switch statement of DecodeString, entered after the backslash
has been skipped; c is the selector returned by l.Next(). -/
def handleEscape (c : Option Char) (s : SLex) : SLex :=
  match c with
  | none => s
  | some c =>
    if singleSelectors.contains c then
      s.emit .singleEscape
    else if c = '0' then
      let (p, s1) := s.peek
      if ¬isDigitOpt p then s1.emit .singleEscape
      else (s1.acceptRun (lc "01234567")).emit .octalEscape
    else if c = 'x' then
      let s1 := s.ignore
      let (ok, s2) := s1.acceptN validHex 2
      if ok then s2.emit .hexEscape else s2
    else if c = 'u' then
      let s1 := s.ignore
      let (okb, s2) := s1.accept [Char.ofNat 123]
      let s3 :=
        if okb then
          let s2a := ((s2.ignore).acceptRun validHex).emit .codepointEscape
          let (okc, s2b) := s2a.accept [Char.ofNat 125]
          if okc then s2b.ignore else s2b
        else s2
      let (ok4, s4) := s3.acceptN validHex 4
      if ok4 then s4.emit .unicodeEscape else s4
    else s

/-- The main loop of DecodeString. Each iteration consumes the
backslash it found (or stops), so fuel str.length + 1 never runs out. -/
def decodeLoop : Nat → SLex → SLex
  | 0, s => s
  | fuel + 1, s =>
    if s.done then s
    else
      let s1 := (s.acceptUntil (Char.ofNat 92)).emit .string
      if s1.done then s1
      else
        let (_, s2) := s1.next
        let s3 := s2.ignore
        let (c, s4) := s3.next
        decodeLoop fuel (handleEscape c s4)

/-- stringLexer.String: concatenation of the decoded tokens. -/
def lexerString (s : SLex) : List Char := (s.items.map itemStr).flatten

/-- strings.go DecodeString: dequote, lex, join. -/
def DecodeString (s : List Char) : List Char :=
  let t := dequote s
  lexerString (decodeLoop (t.length + 1)
    { str := t, start := 0, pos := 0, items := [], done := false })

/-! ## Expression collapser (tree.go Node.CollapsedString) -/

/-- tree.go Node, restricted to what CollapsedString inspects: the
tree-sitter type tag, the node's source text, and the left/right field
children of binary expressions. `null` models a nil tree-sitter node
(for which IsValid() is false and Content() is empty). -/
inductive JNode where
  | null
  | mk (typ : List Char) (content : List Char) (left right : JNode)
deriving DecidableEq

/-- tree.go ExpressionPlaceholder (default value). -/
def ExpressionPlaceholder : List Char := lc "EXPR"

/-- tree.go Node.CollapsedString: binary expressions concatenate the
collapses of their left and right fields, string literals yield their
de-quoted raw text, anything else yields the placeholder; an invalid
node yields the empty string. -/
def JNode.collapsedString : JNode → List Char
  | .null => []
  | .mk t c l r =>
    if t = lc "binary_expression" then l.collapsedString ++ r.collapsedString
    else if t = lc "string" then dequote c
    else ExpressionPlaceholder

/-- The parse of `"./login.php?redirect="+url`: a binary expression
whose left field is a string literal and whose right field is an
identifier. -/
def loginConcat : JNode :=
  .mk (lc "binary_expression") (lc "\"./login.php?redirect=\"+url")
    (.mk (lc "string") (lc "\"./login.php?redirect=\"") .null .null)
    (.mk (lc "identifier") (lc "url") .null .null)

/-! ## Object accessor (objects.go) -/

/-- A value or key node as objects.go sees it: tree-sitter type tag and
source text. -/
structure VNode where
  typ : List Char
  content : List Char
deriving DecidableEq

/-- tree.go Node.RawString: de-quoted source text. -/
def VNode.rawString (v : VNode) : List Char := dequote v.content

/-- A named child of an object node: a pair (with key and value nodes)
or some other production (spread_element, comment, ...). -/
inductive OChild where
  | pair (key : VNode) (value : VNode)
  | nonPair (typ : List Char)
deriving DecidableEq

/-- objects.go Object: the validity flag (HasValidNode: node is valid
and of type "object") together with the object's named children. -/
structure JSObject where
  valid : Bool
  children : List OChild
deriving DecidableEq

/-- The scan loop of Object.GetNodeFunc: first pair child whose
de-quoted key satisfies the predicate wins; non-pair children are
skipped. -/
def findPair (fn : List Char → Bool) : List OChild → Option VNode
  | [] => none
  | .pair k v :: rest => if fn k.rawString then some v else findPair fn rest
  | .nonPair _ :: rest => findPair fn rest

/-- objects.go Object.GetNodeFunc. The Go function returns either nil
(no key matched) or an empty &Node\x7b\x7d wrapper (invalid object); both
behave as "no usable node" for every caller modelled here, so both are
modelled as none. -/
def JSObject.getNodeFunc (o : JSObject) (fn : List Char → Bool) : Option VNode :=
  if o.valid then findPair fn o.children else none

/-- objects.go Object.GetNode. -/
def JSObject.getNode (o : JSObject) (key : List Char) : Option VNode :=
  o.getNodeFunc (fun cand => key = cand)

/-- objects.go Object.GetNodeI: case-insensitive key comparison. -/
def JSObject.getNodeI (o : JSObject) (key : List Char) : Option VNode :=
  o.getNodeFunc (fun cand => lowerStr key = lowerStr cand)

/-- objects.go Object.GetKeys: the de-quoted key of every pair child,
in source order (duplicates included). -/
def JSObject.getKeys (o : JSObject) : List (List Char) :=
  if o.valid then
    o.children.filterMap (fun ch =>
      match ch with
      | .pair k _ => some k.rawString
      | .nonPair _ => none)
  else []

/-- objects.go Object.GetString: default unless the first node matching
the key is a string node. -/
def JSObject.getString (o : JSObject) (key dfl : List Char) : List Char :=
  match o.getNode key with
  | some v => if v.typ = lc "string" then v.rawString else dfl
  | none => dfl

/-- objects.go Object.GetStringI: like GetString with case-insensitive
key lookup. -/
def JSObject.getStringI (o : JSObject) (key dfl : List Char) : List Char :=
  match o.getNodeI key with
  | some v => if v.typ = lc "string" then v.rawString else dfl
  | none => dfl

/-- objects.go Object.AsMap builds an (unordered) Go map by assigning
out[k] = GetString(k, "") for every k in GetKeys; a duplicated key is
assigned the same first-match value each time. The map is modelled as
the association list keyed by the distinct keys (every ordering of
which carries the same bindings). -/
def JSObject.asMap (o : JSObject) : List (List Char × List Char) :=
  o.getKeys.dedup.map (fun k => (k, o.getString k []))

/-- An object with a duplicated key "a": first pair maps it to the
string "one", second to "two". -/
def dupObj : JSObject :=
  ⟨true,
   [.pair ⟨lc "property_identifier", lc "a"⟩ ⟨lc "string", lc "\"one\""⟩,
    .pair ⟨lc "property_identifier", lc "a"⟩ ⟨lc "string", lc "\"two\""⟩]⟩

/-! ## Firebase secret matcher (firebaseMatcher) -/

/-- Severity levels of secret findings. -/
inductive Severity where
  | info
  | low
  | medium
  | high
deriving DecidableEq

/-- A secret finding, restricted to the fields firebaseMatcher sets. -/
structure Secret where
  kind : List Char
  severity : Severity
  data : List (List Char × List Char)
deriving DecidableEq

/-- firebaseMatcher's required key set (len 4). -/
def firebaseMustHave : List (List Char) :=
  [lc "apiKey", lc "authDomain", lc "projectId", lc "storageBucket"]

/-- The matcher function of firebaseMatcher, applied to the object view
of a matched (object) node: counts GetKeys entries that are required
keys (with multiplicity), demands that count equal the size of the
required set, then requires the apiKey value (case-insensitive lookup)
to start with "AIza". -/
def firebaseFn (o : JSObject) : Option Secret :=
  let count := (o.getKeys.filter (fun k => firebaseMustHave.contains k)).length
  if count ≠ firebaseMustHave.length then none
  else if ¬startsWithL (lc "AIza") (o.getStringI (lc "apiKey") []) then none
  else some ⟨lc "firebase", .high, o.asMap⟩

/-- An object that contains all four required keys exactly once, with a
Google-prefixed apiKey value. -/
def fbGood : JSObject :=
  ⟨true,
   [.pair ⟨lc "property_identifier", lc "apiKey"⟩ ⟨lc "string", lc "\"AIzaXYZ\""⟩,
    .pair ⟨lc "property_identifier", lc "authDomain"⟩ ⟨lc "string", lc "\"x.firebaseapp.com\""⟩,
    .pair ⟨lc "property_identifier", lc "projectId"⟩ ⟨lc "string", lc "\"x\""⟩,
    .pair ⟨lc "property_identifier", lc "storageBucket"⟩ ⟨lc "string", lc "\"x.appspot.com\""⟩]⟩

/-- fbGood with the storageBucket pair removed (no duplicate keys). -/
def fbMissing : JSObject :=
  ⟨true,
   [.pair ⟨lc "property_identifier", lc "apiKey"⟩ ⟨lc "string", lc "\"AIzaXYZ\""⟩,
    .pair ⟨lc "property_identifier", lc "authDomain"⟩ ⟨lc "string", lc "\"x.firebaseapp.com\""⟩,
    .pair ⟨lc "property_identifier", lc "projectId"⟩ ⟨lc "string", lc "\"x\""⟩]⟩

/-- An object missing storageBucket but with the apiKey pair duplicated,
so that four key occurrences (with multiplicity) hit the required set. -/
def fbDup : JSObject :=
  ⟨true,
   [.pair ⟨lc "property_identifier", lc "apiKey"⟩ ⟨lc "string", lc "\"AIzaXYZ\""⟩,
    .pair ⟨lc "property_identifier", lc "apiKey"⟩ ⟨lc "string", lc "\"AIzaXYZ\""⟩,
    .pair ⟨lc "property_identifier", lc "authDomain"⟩ ⟨lc "string", lc "\"x.firebaseapp.com\""⟩,
    .pair ⟨lc "property_identifier", lc "projectId"⟩ ⟨lc "string", lc "\"x\""⟩]⟩

/-! ## Go net/url model -/

/-- Split at the first occurrence of sep, dropping it: models Go's
split(s, sep, true); when sep is absent the second component is empty. -/
def cutAt (sep : Char) : List Char → List Char × List Char
  | [] => ([], [])
  | c :: rest =>
    if c = sep then ([], rest)
    else
      let (b, a) := cutAt sep rest
      (c :: b, a)

/-- Go strings.Split with a single-rune separator. -/
def goSplit (sep : Char) : List Char → List (List Char)
  | [] => [[]]
  | c :: rest =>
    if c = sep then [] :: goSplit sep rest
    else
      match goSplit sep rest with
      | [] => [[c]]
      | seg :: more => (c :: seg) :: more

/-- ASCII letter. -/
def isAlphaCh (c : Char) : Bool := ('a' ≤ c ∧ c ≤ 'z') ∨ ('A' ≤ c ∧ c ≤ 'Z')

/-- ASCII decimal digit. -/
def isDigitCh (c : Char) : Bool := '0' ≤ c ∧ c ≤ '9'

/-- Scan loop of net/url getScheme; acc holds the candidate scheme
reversed. none models the "missing protocol scheme" error. -/
def getSchemeAux (orig : List Char) (acc : List Char) :
    List Char → Option (List Char × List Char)
  | [] => some ([], orig)
  | c :: rest =>
    if isAlphaCh c then getSchemeAux orig (c :: acc) rest
    else if isDigitCh c ∨ c = '+' ∨ c = '-' ∨ c = '.' then
      if acc.isEmpty then some ([], orig) else getSchemeAux orig (c :: acc) rest
    else if c = ':' then
      if acc.isEmpty then none else some (acc.reverse, rest)
    else some ([], orig)

/-- net/url getScheme. -/
def getScheme (u : List Char) : Option (List Char × List Char) :=
  getSchemeAux u [] u

/-- Every % in s is followed by two hex digits (the unescape validation
Go applies to paths and hosts). -/
def validEscapes : List Char → Bool
  | [] => true
  | c :: rest =>
    if c = '%' then
      match rest with
      | a :: b :: rest2 =>
        validHex.contains a && validHex.contains b && validEscapes rest2
      | _ => false
    else validEscapes rest

/-- Percent-decoding of single-byte escapes (the inputs this repository
feeds the parser contain no multi-byte percent sequences); only called
on text that passed validEscapes, so the fallback cases are inert. -/
def pctDecode : List Char → List Char
  | [] => []
  | '%' :: a :: b :: rest2 =>
    (match digitVal a, digitVal b with
     | some x, some y => Char.ofNat (16 * x + y) :: pctDecode rest2
     | _, _ => '%' :: pctDecode (a :: b :: rest2))
  | '%' :: rest => '%' :: pctDecode rest
  | c :: rest => c :: pctDecode rest

/-- The result of net/url Parse, restricted to the fields the
repository reads. -/
structure GoURL where
  scheme : List Char
  host : List Char
  path : List Char
  rawQuery : List Char
deriving DecidableEq

/-- net/url parseHost without IPv6 bracket forms (modelled as parse
errors; no claim exercises them): validates an all-digits optional port
after the last colon, then unescapes. -/
def parseHost (host : List Char) : Option (List Char) :=
  if startsWithL (lc "[") host then none
  else if host.contains ':' ∧
      ¬((host.reverse.takeWhile (fun c => ¬c = ':')).all isDigitCh) then none
  else if validEscapes host then some (pctDecode host) else none

/-- net/url parseAuthority: text before the last '@' is userinfo and is
dropped (this model does not retain it); the rest is the host. -/
def parseAuthority (auth : List Char) : Option (List Char) :=
  let host :=
    if auth.contains '@' then (auth.reverse.takeWhile (fun c => ¬c = '@')).reverse
    else auth
  parseHost host

/-- Go's control-byte rejection in url.Parse. -/
def hasCTL (s : List Char) : Bool := s.any (fun c => c.toNat < 32 ∨ c.toNat = 127)

/-- net/url Parse with viaRequest = false, faithful for the URL shapes
this repository feeds it (no IPv6 hosts, no multi-byte percent
escapes); none models a parse error. The fragment is split off first,
then the scheme, then the raw query; a rootless rest after a scheme is
an opaque URL with an empty path; an authority follows // unless the
scheme is empty and the rest starts with ///. -/
def goUrlParse (raw : List Char) : Option GoURL :=
  let (noFrag, _) := cutAt '#' raw
  if hasCTL noFrag then none
  else
    match getScheme noFrag with
    | none => none
    | some (scheme0, rest0) =>
      let scheme := lowerStr scheme0
      let (rest, rawQuery) := cutAt '?' rest0
      if ¬startsWithL (lc "/") rest then
        if ¬scheme.isEmpty then some ⟨scheme, [], [], rawQuery⟩
        else if (cutAt '/' rest).1.contains ':' then none
        else if validEscapes rest then some ⟨scheme, [], pctDecode rest, rawQuery⟩
        else none
      else if (¬scheme.isEmpty ∨ ¬startsWithL (lc "///") rest) ∧
          startsWithL (lc "//") rest then
        let afterSlashes := rest.drop 2
        let auth := afterSlashes.takeWhile (fun c => ¬c = '/')
        let rest3 := afterSlashes.dropWhile (fun c => ¬c = '/')
        match parseAuthority auth with
        | none => none
        | some host =>
          if validEscapes rest3 then some ⟨scheme, host, pctDecode rest3, rawQuery⟩
          else none
      else if validEscapes rest then some ⟨scheme, [], pctDecode rest, rawQuery⟩
      else none

/-- net/url URL.Hostname: the host with a valid numeric port stripped. -/
def GoURL.hostname (u : GoURL) : List Char :=
  if u.host.contains ':' ∧ (u.host.reverse.takeWhile (fun c => ¬c = ':')).all isDigitCh then
    ((u.host.reverse.dropWhile (fun c => ¬c = ':')).reverse).dropLast
  else u.host

/-- Go url.QueryUnescape: '+' becomes space, percent escapes decode;
none models an unescape error. -/
def queryUnescape (s : List Char) : Option (List Char) :=
  if validEscapes s then
    some (pctDecode (s.map (fun c => if c = '+' then ' ' else c)))
  else none

/-- Go url.ParseQuery as observed through Query(): the key/value pairs
in order; segments that are empty, contain ';', or fail unescaping are
skipped (Query() discards the error). -/
def parseQueryGo (raw : List Char) : List (List Char × List Char) :=
  (goSplit '&' raw).filterMap (fun seg =>
    if seg.isEmpty then none
    else if seg.contains ';' then none
    else
      let kv := cutAt '=' seg
      match queryUnescape kv.1, queryUnescape kv.2 with
      | some k, some v => some (k, v)
      | _, _ => none)

/-- Scan of firstPerKey: keep a pair only when its key was not seen. -/
def firstPerKeyAux (seen : List (List Char)) :
    List (List Char × List Char) → List (List Char × List Char)
  | [] => []
  | p :: rest =>
    if seen.contains p.1 then firstPerKeyAux seen rest
    else p :: firstPerKeyAux (p.1 :: seen) rest

/-- The first binding of each distinct key, in order of first
appearance: vv[0] of each url.Values entry. -/
def firstPerKey (l : List (List Char × List Char)) :
    List (List Char × List Char) :=
  firstPerKeyAux [] l

/-- MaybeURL's query test: u.Query() has some entry whose first value
is nonempty. -/
def queryHasValue (raw : List Char) : Bool :=
  (firstPerKey (parseQueryGo raw)).any (fun p => ¬p.2.isEmpty)

/-- maybeurl.go fileExtensions. -/
def fileExtensions : List (List Char) :=
  [lc "js", lc "css", lc "html", lc "htm", lc "xhtml", lc "xlsx",
   lc "xls", lc "docx", lc "doc", lc "pdf", lc "rss", lc "xml",
   lc "php", lc "phtml", lc "asp", lc "aspx", lc "asmx", lc "ashx",
   lc "cgi", lc "pl", lc "rb", lc "py", lc "do", lc "jsp",
   lc "jspa", lc "json", lc "jsonp", lc "txt"]

/-- The disallow-list of MaybeURL: space ( ) ! < > ' " backtick braces
^ $ comma. -/
def urlBadChars : List Char := lc " ()!<>'\"`\x7b\x7d^$,"

/-- maybeurl.go MaybeURL. -/
def MaybeURL (s : List Char) : Bool :=
  if ¬containsAny s (lc "/?.") then false
  else if containsAny s urlBadChars then false
  else if startsWithL (lc "/") s then true
  else
    match goUrlParse s with
    | none => false
    | some u =>
      if ¬u.scheme.isEmpty ∧ ¬lowerStr u.scheme = lc "http" ∧
          ¬lowerStr u.scheme = lc "https" then false
      else if (goSplit '.' u.hostname).length > 1 then true
      else if queryHasValue u.rawQuery then true
      else if ¬containsAny u.path (lc ".") then false
      else fileExtensions.contains ((goSplit '.' u.path).getLastD [])

/-! ## GetURLs normalization pipeline (url-matchers.go) -/

/-- A URL finding, restricted to the fields the normalization loop of
GetURLs touches; none for queryParams/bodyParams models a nil Go
slice. -/
structure URLRec where
  url : List Char
  queryParams : Option (List (List Char))
  bodyParams : Option (List (List Char))
deriving DecidableEq

/-- The scheme prefixes filtered out by GetURLs. -/
def badSchemes : List (List Char) :=
  [lc "data:", lc "tel:", lc "about:", lc "javascript:"]

/-- Loop of Go strings.ReplaceAll: fuel counts scan steps; every step
shortens the remaining input by at least one rune (the pattern, when it
matches, is nonempty), so fuel = input length never runs out. -/
def replaceAllGo (pat rep : List Char) : Nat → List Char → List Char
  | 0, l => l
  | _, [] => []
  | fuel + 1, c :: rest =>
    if ¬pat.isEmpty ∧ pat.isPrefixOf (c :: rest) then
      rep ++ replaceAllGo pat rep fuel ((c :: rest).drop pat.length)
    else c :: replaceAllGo pat rep fuel rest

/-- Go strings.ReplaceAll (only ever called here with a nonempty
pattern). -/
def replaceAllL (pat rep l : List Char) : List Char :=
  replaceAllGo pat rep l.length l

/-- The regexp `[^A-Z-a-z]` deletion (keeping letters and hyphen)
followed by placeholder removal: true when the URL is entirely
placeholder tokens plus separators. -/
def placeholderOnly (url : List Char) : Bool :=
  let letters := url.filter (fun c =>
    ('A' ≤ c ∧ c ≤ 'Z') ∨ ('a' ≤ c ∧ c ≤ 'z') ∨ c = '-')
  (replaceAllL ExpressionPlaceholder [] letters).isEmpty

/-- Semantics of ranging over the keys of a Go map built by inserting
the elements of a list: some enumeration of the distinct elements, in
an unspecified order. GetURLs ranges over Go maps twice (u.Query() and
unique), so the pipeline is parameterized by the orders chosen. -/
def MapIter (f : List (List Char) → List (List Char)) : Prop :=
  ∀ l, (f l).Nodup ∧ ∀ x, x ∈ f l ↔ x ∈ l

/-- First-occurrence-order map enumeration. -/
def dedupFn (l : List (List Char)) : List (List Char) := l.dedup

/-- Another valid map enumeration: the reversed one. -/
def revDedupFn (l : List (List Char)) : List (List Char) := l.dedup.reverse

/-- The per-match normalization of GetURLs (url-matchers.go lines
49-97): decode escapes in the URL, default nil param slices to empty,
drop data:/tel:/about:/javascript: URLs, drop placeholder-only URLs,
drop www.w3.org hosts, append the parsed query keys (skipping any key
literally equal to the placeholder) and deduplicate with unique. -/
def processMatch (parse : List Char → Option GoURL)
    (qIter uIter : List (List Char) → List (List Char)) (m : URLRec) :
    Option URLRec :=
  let url := DecodeString m.url
  let qp := m.queryParams.getD []
  let bp := m.bodyParams.getD []
  if badSchemes.any (fun p => startsWithL p (lowerStr url)) then none
  else if placeholderOnly url then none
  else
    match parse url with
    | some u =>
      if u.hostname = lc "www.w3.org" then none
      else
        let qp1 := qp ++ (qIter ((parseQueryGo u.rawQuery).map Prod.fst)).filter
          (fun p => ¬p = ExpressionPlaceholder)
        some ⟨url, some (uIter qp1), some bp⟩
    | none => some ⟨url, some (uIter qp), some bp⟩

/-- Analyzer.GetURLs, abstracted over the list of raw matcher outputs
produced during the tree traversal: the remaining behavior is the
normalization loop applied to each raw match in order. -/
def getURLs (parse : List Char → Option GoURL)
    (qIter uIter : List (List Char) → List (List Char))
    (raw : List URLRec) : List URLRec :=
  raw.filterMap (processMatch parse qIter uIter)

/-- A raw match as the location-assignment matcher would produce for
`location = "/a?x=1"`. -/
def rawEx : URLRec := ⟨lc "/a?x=1", none, none⟩

/-- The normalized finding for rawEx. -/
def outEx : URLRec := ⟨lc "/a?x=1", some [lc "x"], some []⟩

/-- A raw match with two query parameters. -/
def rawEx2 : URLRec := ⟨lc "/a?x=1&y=2", none, none⟩

/-! ## User patterns (part_013: ParseRegex / ParseUserPatterns) -/

/-- A user-supplied secret pattern after JSON decoding: name, key and
value regex texts, severity, nested object patterns, and the compiled
regex slots (none models a nil *regexp.Regexp). -/
inductive UPat where
  | mk (name key value severity : List Char) (object : List UPat)
      (reKey reValue : Option Unit)

/-- The two error classes ParseRegex can return: a regex compilation
error, or the descriptive "key, value, both, or object must be
supplied in user-defined matcher" error. -/
inductive PatErr where
  | badRegex
  | noCriteria
deriving DecidableEq

/-- The object list of a pattern. -/
def UPat.objectOf : UPat → List UPat
  | .mk _ _ _ _ o _ _ => o

/-- The compiled key-regex slot of a pattern. -/
def UPat.reKeyOf : UPat → Option Unit
  | .mk _ _ _ _ _ rk _ => rk

mutual

/-- UserPattern.ParseRegex, parameterized by a model of regexp.Compile
(some () = compiles, none = invalid). Faithful to the Go control flow:
a bad value or key regex returns that error immediately; the recursive
calls on nested object patterns DISCARD their errors (the Go source
ignores the return value of m.ParseRegex()); severity defaults to
info; a pattern with no value regex, no key regex and no nested
patterns is rejected with the descriptive error. -/
def parseRegex (compile : List Char → Option Unit) : UPat → UPat × Option PatErr
  | .mk n k v sev obj rk rv =>
    if ¬v.isEmpty ∧ compile v = none then
      (.mk n k v sev obj rk rv, some .badRegex)
    else
      let rv1 := if ¬v.isEmpty then some () else rv
      if ¬k.isEmpty ∧ compile k = none then
        (.mk n k v sev obj rk rv1, some .badRegex)
      else
        let rk1 := if ¬k.isEmpty then some () else rk
        let obj1 := parseRegexList compile obj
        let sev1 := if sev.isEmpty then lc "info" else sev
        if rv1 = none ∧ rk1 = none ∧ obj1.isEmpty then
          (.mk n k v sev1 obj1 rk1 rv1, some .noCriteria)
        else (.mk n k v sev1 obj1 rk1 rv1, none)

/-- The loop over nested object patterns: each is parsed in place and
its error ignored. -/
def parseRegexList (compile : List Char → Option Unit) : List UPat → List UPat
  | [] => []
  | p :: ps => (parseRegex compile p).1 :: parseRegexList compile ps

end

/-- ParseUserPatterns after JSON decoding: ParseRegex is run on each
pattern in order and the first error aborts loading. -/
def parseUserPatterns (compile : List Char → Option Unit) :
    List UPat → List UPat × Option PatErr
  | [] => ([], none)
  | p :: rest =>
    let pe := parseRegex compile p
    match pe.2 with
    | some err => (pe.1 :: rest, some err)
    | none =>
      let re := parseUserPatterns compile rest
      (pe.1 :: re.1, re.2)

/-- A model of regexp.Compile on which the single text "(" is the
invalid expression (as it is for Go's regexp.Compile). -/
def compileStub (s : List Char) : Option Unit :=
  if s = lc "(" then none else some ()

/-- A pattern whose nested object pattern carries the invalid key
regex "(": the JSON form [\x7b"name":"x","object":[\x7b"key":"("\x7d]\x7d]. -/
def nestedBadPattern : UPat :=
  .mk (lc "x") [] [] [] [.mk [] (lc "(") [] [] [] none none] none none

/-- A pattern with no key regex, no value regex and no nested
patterns. -/
def noCriteriaPattern : UPat := .mk (lc "y") [] [] [] [] none none

/-- A pattern whose own value regex is the invalid "(". -/
def topBadPattern : UPat := .mk (lc "z") [] (lc "(") [] [] none none

/-! ## GetSecrets (secret-matchers.go) -/

/-- Keyed lookup in the per-query node cache of GetSecrets. A Go map
read by key is deterministic (only ranging over a map has unspecified
order), so an association list models it faithfully. -/
def lookupQ {ν : Type} (q : List Char) :
    List (List Char × List ν) → Option (List ν)
  | [] => none
  | e :: rest => if e.1 = q then some e.2 else lookupQ q rest

/-- Analyzer.GetSecrets (secret-matchers.go lines 20-49), abstracted
over the node type, the query facility (a pure function of the query
string, for one parse tree) and the matcher list: each matcher in
order runs its query through the nodeCache (a query string already
seen is looked up instead of re-run) and appends the secrets its
function extracts from the resulting nodes, in node order. -/
def getSecretsGo {ν : Type} (queryFn : List Char → List ν) :
    List (List Char × (ν → Option Secret)) →
    List (List Char × List ν) → List Secret
  | [], _ => []
  | m :: ms, cache =>
    let cache1 :=
      match lookupQ m.1 cache with
      | some _ => cache
      | none => cache ++ [(m.1, queryFn m.1)]
    ((lookupQ m.1 cache1).getD []).filterMap m.2 ++ getSecretsGo queryFn ms cache1

/-- The cache-free specification of GetSecrets: every matcher, in
order, extracts from the nodes its query returns. -/
def secretsSpec {ν : Type} (queryFn : List Char → List ν)
    (matchers : List (List Char × (ν → Option Secret))) : List Secret :=
  (matchers.map (fun m => (queryFn m.1).filterMap m.2)).flatten

/-- A node cache is coherent when every stored entry is what the query
facility returns for its key — true of the empty cache GetSecrets
starts from and of every state it builds. -/
def CacheOK {ν : Type} (queryFn : List Char → List ν)
    (cache : List (List Char × List ν)) : Prop :=
  ∀ q ns, (q, ns) ∈ cache → ns = queryFn q

/-- The query string of the firebase matcher. -/
def objQuery : List Char := lc "(object) @matches"

/-! ## Theorems -/

/-- Helper: GetNodeFunc's scan returns the first matching pair's value. -/
theorem findPair_append (fn : List Char → Bool) (pre post : List OChild) (k v : VNode)
    (hpre : ∀ k' v', OChild.pair k' v' ∈ pre → fn k'.rawString = false)
    (hk : fn k.rawString = true) :
    findPair fn (pre ++ OChild.pair k v :: post) = some v := by
  induction pre with
  | nil => simp [findPair, hk]
  | cons ch rest ih =>
    cases ch with
    | pair k' v' =>
      have h := hpre k' v' (List.mem_cons_self _ _)
      simpa [findPair, h] using ih (fun a b hm => hpre a b (List.mem_cons_of_mem _ hm))
    | nonPair t =>
      simpa [findPair] using ih (fun a b hm => hpre a b (List.mem_cons_of_mem _ hm))

/-- Helper: GetKeys keeps one entry per pair child, so key multiplicity
in GetKeys equals the number of pair children carrying that key. -/
theorem count_pair_keys (key : List Char) (l : List OChild) :
    ((l.filterMap (fun ch =>
      match ch with
      | .pair k _ => some k.rawString
      | .nonPair _ => none)).count key) =
    l.countP (fun ch =>
      match ch with
      | .pair k _ => decide (k.rawString = key)
      | .nonPair _ => false) := by
  induction l with
  | nil => simp
  | cons ch rest ih =>
    cases ch with
    | pair k v => simp [List.count_cons, List.countP_cons, ih]
    | nonPair t => simp [List.countP_cons, ih]

/-- C3: CollapsedString of a binary expression is the concatenation of
the collapses of its left and right children; of a string literal it is
the de-quoted raw text with escapes left undecoded; of any other node
type it is the placeholder token "EXPR"; `"./login.php?redirect="+url`
collapses to `./login.php?redirect=EXPR` and a bare identifier
collapses to `EXPR`. -/
theorem c3_collapsed_string :
    (∀ c l r, (JNode.mk (lc "binary_expression") c l r).collapsedString
        = l.collapsedString ++ r.collapsedString) ∧
    (∀ c l r, (JNode.mk (lc "string") c l r).collapsedString = dequote c) ∧
    (∀ t c l r, t ≠ lc "binary_expression" → t ≠ lc "string" →
        (JNode.mk t c l r).collapsedString = ExpressionPlaceholder) ∧
    (JNode.mk (lc "string") (lc "\"a\\x3db\"") .null .null).collapsedString
      = lc "a\\x3db" ∧
    loginConcat.collapsedString = lc "./login.php?redirect=EXPR" ∧
    (JNode.mk (lc "identifier") (lc "url") .null .null).collapsedString
      = ExpressionPlaceholder := by
  refine ⟨?_, ?_, ?_, by decide, by decide, by decide⟩
  · intro c l r
    simp only [JNode.collapsedString]
    simp
  · intro c l r
    simp only [JNode.collapsedString]
    simp
    exact fun h => absurd h (by decide)
  · intro t c l r h1 h2
    simp only [JNode.collapsedString]
    rw [if_neg h1, if_neg h2]

/-- Witness for C3: the other-node-type case at a concrete member
expression. -/
theorem c3_witness :
    (JNode.mk (lc "member_expression") (lc "a.b") .null .null).collapsedString
      = ExpressionPlaceholder :=
  c3_collapsed_string.2.2.1 (lc "member_expression") (lc "a.b") .null .null
    (by decide) (by decide)

/-- C6 counterexample: on an object with the key "a" duplicated,
GetKeys returns BOTH occurrences `["a", "a"]` — not just the first
occurrence `["a"]` as the claim states — while GetString does return
the first occurrence's value. -/
theorem c6_counterexample :
    dupObj.getKeys = [lc "a", lc "a"] ∧
    ¬dupObj.getKeys = [lc "a"] ∧
    dupObj.getString (lc "a") [] = lc "one" := by decide

/-- C6 amended: GetNode and GetString return the value of the first
pair whose key matches, regardless of later duplicates; GetKeys
returns the key of every pair child in source order, so a duplicated
key appears once per occurrence (first and last alike). -/
theorem c6_amended :
    (∀ (o : JSObject) (key dfl : List Char) (pre post : List OChild) (kNode v : VNode),
      o.valid = true →
      o.children = pre ++ OChild.pair kNode v :: post →
      kNode.rawString = key →
      (∀ k' v', OChild.pair k' v' ∈ pre → ¬k'.rawString = key) →
      o.getNode key = some v ∧
      (v.typ = lc "string" → o.getString key dfl = v.rawString)) ∧
    (∀ (o : JSObject) (key : List Char), o.valid = true →
      o.getKeys.count key = o.children.countP (fun ch =>
        match ch with
        | .pair k _ => decide (k.rawString = key)
        | .nonPair _ => false)) := by
  constructor
  · intro o key dfl pre post kNode v hval hch hkey hpre
    have hnode : o.getNode key = some v := by
      unfold JSObject.getNode JSObject.getNodeFunc
      rw [hval, if_pos rfl, hch]
      exact findPair_append _ pre post kNode v
        (fun a b hm => by simpa [eq_comm] using hpre a b hm) (by simp [hkey])
    refine ⟨hnode, fun ht => ?_⟩
    unfold JSObject.getString
    rw [hnode]
    simp [ht]
  · intro o key hval
    unfold JSObject.getKeys
    rw [hval, if_pos rfl]
    exact count_pair_keys key o.children

/-- Witness for C6 amended at the duplicate-key object. -/
theorem c6_witness :
    dupObj.getNode (lc "a") = some ⟨lc "string", lc "\"one\""⟩ ∧
    dupObj.getString (lc "a") [] = (⟨lc "string", lc "\"one\""⟩ : VNode).rawString :=
  have h := c6_amended.1 dupObj (lc "a") []
    [] [.pair ⟨lc "property_identifier", lc "a"⟩ ⟨lc "string", lc "\"two\""⟩]
    ⟨lc "property_identifier", lc "a"⟩ ⟨lc "string", lc "\"one\""⟩
    (by decide) (by decide) (by decide) (by intro a b hm; cases hm)
  ⟨h.1, h.2 (by decide)⟩

/-- C9 counterexample: an object literal missing the required key
storageBucket but with its apiKey pair duplicated IS reported by the
firebase matcher (the matcher counts required-key occurrences with
multiplicity), refuting "an object literal missing any one of the
required keys is never reported". -/
theorem c9_counterexample :
    (firebaseFn fbDup).isSome = true ∧
    ¬(lc "storageBucket") ∈ fbDup.getKeys := by decide

/-- C9 amended: the firebase matcher reports an object (kind firebase,
severity high, payload the full object map) iff exactly four of its
pair-key occurrences, counted with multiplicity, are members of
{apiKey, authDomain, projectId, storageBucket} and the apiKey value
(case-insensitive first-match lookup) is a string starting with
"AIza"; for objects without duplicate keys this coincides with
containing all four required keys, as fbGood and fbMissing show. -/
theorem c9_amended :
    (∀ (o : JSObject) (s : Secret),
      firebaseFn o = some s ↔
        ((o.getKeys.filter (fun k => firebaseMustHave.contains k)).length = 4 ∧
         startsWithL (lc "AIza") (o.getStringI (lc "apiKey") []) = true ∧
         s = ⟨lc "firebase", Severity.high, o.asMap⟩)) ∧
    (firebaseFn fbGood).isSome = true ∧
    firebaseFn fbMissing = none := by
  have hlen : firebaseMustHave.length = 4 := by decide
  refine ⟨?_, by decide, by decide⟩
  intro o s
  constructor
  · intro h
    unfold firebaseFn at h
    by_cases hc : (o.getKeys.filter (fun k => firebaseMustHave.contains k)).length
        = firebaseMustHave.length
    · rw [if_neg (not_not_intro hc)] at h
      by_cases hp : startsWithL (lc "AIza") (o.getStringI (lc "apiKey") []) = true
      · rw [if_neg (not_not_intro hp)] at h
        injection h with h'
        exact ⟨hlen ▸ hc, hp, h'.symm⟩
      · rw [if_pos hp] at h
        cases h
    · rw [if_pos hc] at h
      cases h
  · rintro ⟨hc, hp, hs⟩
    unfold firebaseFn
    rw [if_neg (not_not_intro (hlen ▸ hc)), if_neg (not_not_intro hp), hs]

/-- C1: DecodeString resolves each supported escape class to its true
character — octal `\075`, hex `\x3d`, unicode `\u003d`, braced
codepoint escapes, and the single-character escapes for tab, backslash
and double quote all decode to the expected character, with the
surrounding non-escape text copied verbatim. -/
theorem c1_decode_escape_classes :
    DecodeString (lc "\"foo\\075bar\"") = lc "foo=bar" ∧
    DecodeString (lc "\"foo\\x3dbar\"") = lc "foo=bar" ∧
    DecodeString (lc "\"foo\\u003dbar\"") = lc "foo=bar" ∧
    DecodeString (lc "\"foo\\u\x7b3d\x7dbar\"") = lc "foo=bar" ∧
    DecodeString (lc "\"foo\\tbar\"") = lc "foo" ++ [Char.ofNat 9] ++ lc "bar" ∧
    DecodeString (lc "\"foo\\\\bar\"") = lc "foo" ++ [Char.ofNat 92] ++ lc "bar" ∧
    DecodeString (lc "\"foo\\\"bar\"") = lc "foo" ++ [Char.ofNat 34] ++ lc "bar" ∧
    DecodeString (lc "\\075") = lc "=" ∧
    DecodeString (lc "\\x3d") = lc "=" ∧
    DecodeString (lc "\\u003d") = lc "=" ∧
    DecodeString (lc "\\u\x7b3d\x7d") = lc "=" := by
  decide

/-- C2 counterexample: a `\x` escape followed by one hex digit and then
a non-hex character does NOT drop its digit — the consumed digit `3` is
re-emitted verbatim with the following text, so `\x3zoo` decodes to
`3zoo`, not to `zoo` as the claim ("the escape and its digits are
dropped silently") requires; likewise `\u00zoo` decodes to `00zoo`. -/
theorem c2_counterexample :
    DecodeString (lc "\\x3zoo") = lc "3zoo" ∧
    DecodeString (lc "\\u00zoo") = lc "00zoo" ∧
    ¬DecodeString (lc "\\x3zoo") = lc "zoo" ∧
    ¬DecodeString (lc "\\u00zoo") = lc "zoo" := by
  decide

/-- C2 amended: a `\x` escape with fewer than 2 following hex digits and
a non-braced `\u` escape with fewer than 4 following hex digits never
substitute a character and never fail: the backslash and the `x`/`u`
marker are dropped silently, the hex digits that were consumed while
attempting the escape are re-emitted verbatim as part of the following
literal text, and they are dropped only when the input ends inside the
escape (so `"\x3"` and `"\u123"` decode to the empty string). -/
theorem c2_amended_short_escapes :
    DecodeString (lc "\\x3") = lc "" ∧
    DecodeString (lc "\\x3zoo") = lc "3zoo" ∧
    DecodeString (lc "\\xzoo") = lc "zoo" ∧
    DecodeString (lc "\\u123") = lc "" ∧
    DecodeString (lc "\\u123zoo") = lc "123zoo" ∧
    DecodeString (lc "\\uzoo") = lc "zoo" := by
  decide

/-- C10: after a braced codepoint escape `\u{...}`, four immediately
following hex-digit characters are consumed as an additional four-digit
`\u` escape and emitted as the corresponding code unit rather than
copied verbatim: `\u{3d}face` decodes to `=` followed by the single
code point U+FACE (not to the five characters `=face`), and
`\u{3d}0abcX` decodes to `=` then U+0ABC then `X`. -/
theorem c10_braced_escape_consumes_following_hex :
    DecodeString (lc "\\u\x7b3d\x7dface") = ['=', Char.ofNat 0xFACE] ∧
    ¬DecodeString (lc "\\u\x7b3d\x7dface") = lc "=face" ∧
    DecodeString (lc "\\u\x7b3d\x7d0abcX") = ['=', Char.ofNat 0x0ABC, 'X'] := by
  decide

/-- C4: MaybeURL returns exactly the booleans of the spec's fixture
table, and returns true for every string that starts with "/" and
contains none of the disallowed characters. -/
theorem c4_maybeurl :
    MaybeURL (lc "https://example.com") = true ∧
    MaybeURL (lc "//example.org") = true ∧
    MaybeURL (lc "foo?id=123") = true ∧
    MaybeURL (lc "example.org") = false ∧
    MaybeURL (lc "Who? Me?") = false ∧
    MaybeURL (lc "./") = false ∧
    MaybeURL (lc "foo/bar") = false ∧
    (∀ s : List Char, startsWithL (lc "/") s = true →
      containsAny s urlBadChars = false → MaybeURL s = true) := by
  refine ⟨by decide, by decide, by decide, by decide, by decide, by decide, by decide, ?_⟩
  intro s h1 h2
  match s with
  | [] => cases h1
  | c :: t =>
    have hc : c = '/' := by
      by_contra hne
      simp [startsWithL, lc, List.isPrefixOf, hne] at h1
      exact hne (by simpa [eq_comm] using h1)
    subst hc
    unfold MaybeURL
    rw [h2]
    have hca : containsAny ('/' :: t) (lc "/?.") = true := by
      simp [containsAny, lc]
    rw [hca]
    simp [startsWithL, lc, List.isPrefixOf]

/-- Witness for C4: the universal slash-prefix case at "/api". -/
theorem c4_witness :
    startsWithL (lc "/") (lc "/api") = true ∧
    containsAny (lc "/api") urlBadChars = false ∧
    MaybeURL (lc "/api") = true :=
  ⟨by decide, by decide,
    c4_maybeurl.2.2.2.2.2.2.2 (lc "/api") (by decide) (by decide)⟩

/-- dedup is a valid map enumeration. -/
theorem dedupFn_mapIter : MapIter dedupFn :=
  fun l => ⟨l.nodup_dedup, fun x => l.mem_dedup⟩

/-- reversed dedup is a valid map enumeration. -/
theorem revDedupFn_mapIter : MapIter revDedupFn :=
  fun l =>
    ⟨by simpa [revDedupFn, List.nodup_reverse] using l.nodup_dedup,
     fun x => by simp [revDedupFn, List.mem_reverse, List.mem_dedup]⟩

/-- C5: every finding returned by GetURLs satisfies the normalization
invariants: the url is the escape-decoded raw url; queryParams and
bodyParams are non-nil; the url has no data:/tel:/about:/javascript:
prefix (case-insensitively); the url is not composed entirely of
placeholder tokens; a successful parse of the url never has hostname
www.w3.org; and queryParams is duplicate-free and contains every
parsed query-string parameter name other than the placeholder. Stated
for every map-iteration order the Go runtime could choose. -/
theorem c5_geturls_invariants
    (parse : List Char → Option GoURL)
    (qIter uIter : List (List Char) → List (List Char))
    (hq : MapIter qIter) (hu : MapIter uIter)
    (raw : List URLRec) (out : URLRec)
    (hout : out ∈ getURLs parse qIter uIter raw) :
    (∃ m ∈ raw, out.url = DecodeString m.url) ∧
    out.queryParams.isSome = true ∧
    out.bodyParams.isSome = true ∧
    (∀ p ∈ badSchemes, ¬startsWithL p (lowerStr out.url) = true) ∧
    placeholderOnly out.url = false ∧
    (∀ u, parse out.url = some u → ¬u.hostname = lc "www.w3.org") ∧
    (∀ qs, out.queryParams = some qs → qs.Nodup ∧
      ∀ u, parse out.url = some u →
        ∀ name ∈ (parseQueryGo u.rawQuery).map Prod.fst,
          ¬name = ExpressionPlaceholder → name ∈ qs) := by
  obtain ⟨m, hm, hpm⟩ := List.mem_filterMap.mp hout
  unfold processMatch at hpm
  by_cases h1 :
      badSchemes.any (fun p => startsWithL p (lowerStr (DecodeString m.url))) = true
  · rw [if_pos h1] at hpm; cases hpm
  · rw [if_neg h1] at hpm
    by_cases h2 : placeholderOnly (DecodeString m.url) = true
    · rw [if_pos h2] at hpm; cases hpm
    · rw [if_neg h2] at hpm
      cases hp : parse (DecodeString m.url) with
      | some u =>
        rw [hp] at hpm
        dsimp only at hpm
        by_cases h3 : u.hostname = lc "www.w3.org"
        · rw [if_pos h3] at hpm; cases hpm
        · rw [if_neg h3] at hpm
          injection hpm with h'
          subst h'
          refine ⟨⟨m, hm, rfl⟩, rfl, rfl, ?_, ?_, ?_, ?_⟩
          · intro p hpmem
            intro hsw
            exact h1 (List.any_eq_true.mpr ⟨p, hpmem, hsw⟩)
          · exact Bool.not_eq_true _ ▸ Bool.of_not_eq_true h2
          · intro u' hu'
            rw [hp] at hu'
            injection hu' with he
            subst he
            exact h3
          · intro qs hqs
            injection hqs with he
            subst he
            refine ⟨(hu _).1, ?_⟩
            intro u' hu' name hname hne
            rw [hp] at hu'
            injection hu' with he
            subst he
            rw [(hu _).2]
            refine List.mem_append.mpr (Or.inr ?_)
            rw [List.mem_filter]
            refine ⟨?_, by simpa using hne⟩
            rw [(hq _).2]
            exact hname
      | none =>
        rw [hp] at hpm
        dsimp only at hpm
        injection hpm with h'
        subst h'
        refine ⟨⟨m, hm, rfl⟩, rfl, rfl, ?_, ?_, ?_, ?_⟩
        · intro p hpmem hsw
          exact h1 (List.any_eq_true.mpr ⟨p, hpmem, hsw⟩)
        · exact Bool.not_eq_true _ ▸ Bool.of_not_eq_true h2
        · intro u' hu'
          rw [hp] at hu'
          cases hu'
        · intro qs hqs
          injection hqs with he
          subst he
          refine ⟨(hu _).1, ?_⟩
          intro u' hu'
          rw [hp] at hu'
          cases hu'

/-- Witness for C5 at a concrete location-assignment match. -/
theorem c5_witness :
    (∃ m ∈ [rawEx], outEx.url = DecodeString m.url) ∧
    outEx.queryParams.isSome = true ∧
    outEx.bodyParams.isSome = true ∧
    (∀ p ∈ badSchemes, ¬startsWithL p (lowerStr outEx.url) = true) ∧
    placeholderOnly outEx.url = false ∧
    (∀ u, goUrlParse outEx.url = some u → ¬u.hostname = lc "www.w3.org") ∧
    (∀ qs, outEx.queryParams = some qs → qs.Nodup ∧
      ∀ u, goUrlParse outEx.url = some u →
        ∀ name ∈ (parseQueryGo u.rawQuery).map Prod.fst,
          ¬name = ExpressionPlaceholder → name ∈ qs) :=
  c5_geturls_invariants goUrlParse dedupFn dedupFn
    dedupFn_mapIter dedupFn_mapIter [rawEx] outEx
    (by rw [show getURLs goUrlParse dedupFn dedupFn [rawEx] = [outEx] by decide]
        exact List.mem_singleton.mpr rfl)

/-- C7 counterexample: GetURLs is not deterministic across runs — the
unique() dedup ranges over a Go map, whose iteration order is
unspecified, so two valid iteration orders (first-occurrence order and
its reverse) yield finding lists that differ in the ordering of a
finding's queryParams. -/
theorem c7_counterexample :
    MapIter dedupFn ∧ MapIter revDedupFn ∧
    ¬getURLs goUrlParse dedupFn dedupFn [rawEx2]
      = getURLs goUrlParse dedupFn revDedupFn [rawEx2] :=
  ⟨dedupFn_mapIter, revDedupFn_mapIter, by decide⟩

/-- Helper: two filterMaps whose functions align pointwise produce
Forall2-related outputs. -/
theorem filterMap_align {α β : Type} (f g : α → Option β) (R : β → β → Prop)
    (h : ∀ a, (f a = none ∧ g a = none) ∨
      ∃ x y, f a = some x ∧ g a = some y ∧ R x y) :
    ∀ l : List α, List.Forall₂ R (l.filterMap f) (l.filterMap g) := by
  intro l
  induction l with
  | nil => simp
  | cons a t ih =>
    rcases h a with ⟨hf, hg⟩ | ⟨x, y, hf, hg, hr⟩
    · simpa [List.filterMap_cons, hf, hg] using ih
    · simpa [List.filterMap_cons, hf, hg] using List.Forall₂.cons hr ih

/-- Helper: the normalization of one raw match declines for one
map-iteration choice iff it declines for any other, and the accepted
findings agree on everything except the internal order of
queryParams. -/
theorem processMatch_align
    (parse : List Char → Option GoURL)
    (q1 u1 q2 u2 : List (List Char) → List (List Char))
    (hq1 : MapIter q1) (hu1 : MapIter u1)
    (hq2 : MapIter q2) (hu2 : MapIter u2) (m : URLRec) :
    (processMatch parse q1 u1 m = none ∧ processMatch parse q2 u2 m = none) ∨
    (∃ a b, processMatch parse q1 u1 m = some a ∧
      processMatch parse q2 u2 m = some b ∧
      (a.url = b.url ∧ a.bodyParams = b.bodyParams ∧
        ∃ qa qb, a.queryParams = some qa ∧ b.queryParams = some qb ∧
          (∀ x, x ∈ qa ↔ x ∈ qb))) := by
  unfold processMatch
  by_cases h1 :
      badSchemes.any (fun p => startsWithL p (lowerStr (DecodeString m.url))) = true
  · rw [if_pos h1, if_pos h1]
    exact Or.inl ⟨rfl, rfl⟩
  · rw [if_neg h1, if_neg h1]
    by_cases h2 : placeholderOnly (DecodeString m.url) = true
    · rw [if_pos h2, if_pos h2]
      exact Or.inl ⟨rfl, rfl⟩
    · rw [if_neg h2, if_neg h2]
      cases hp : parse (DecodeString m.url) with
      | some u =>
        dsimp only
        by_cases h3 : u.hostname = lc "www.w3.org"
        · rw [if_pos h3, if_pos h3]
          exact Or.inl ⟨rfl, rfl⟩
        · rw [if_neg h3, if_neg h3]
          refine Or.inr ⟨_, _, rfl, rfl, rfl, rfl, _, _, rfl, rfl, ?_⟩
          intro x
          rw [(hu1 _).2, (hu2 _).2]
          simp only [List.mem_append, List.mem_filter]
          rw [(hq1 _).2, (hq2 _).2]
      | none =>
        dsimp only
        refine Or.inr ⟨_, _, rfl, rfl, rfl, rfl, _, _, rfl, rfl, ?_⟩
        intro x
        rw [(hu1 _).2, (hu2 _).2]

/-- Helper: a successful cache lookup returns a stored entry. -/
theorem lookupQ_mem {ν : Type} (q : List Char) (ns : List ν) :
    ∀ cache, lookupQ q cache = some ns → (q, ns) ∈ cache := by
  intro cache
  induction cache with
  | nil => intro h; cases h
  | cons e rest ih =>
    intro h
    rcases e with ⟨q', v'⟩
    simp only [lookupQ] at h
    by_cases he : q' = q
    · rw [if_pos he] at h
      injection h with h'
      subst he
      subst h'
      exact List.mem_cons_self _ _
    · rw [if_neg he] at h
      exact List.mem_cons_of_mem _ (ih h)

/-- Helper: appending a binding for a key that is absent makes the
lookup find it. -/
theorem lookupQ_append_self {ν : Type} (q : List Char) (v : List ν) :
    ∀ cache, lookupQ q cache = none →
      lookupQ q (cache ++ [(q, v)]) = some v := by
  intro cache
  induction cache with
  | nil => intro _; simp [lookupQ]
  | cons e rest ih =>
    intro h
    rcases e with ⟨q', v'⟩
    simp only [lookupQ] at h ⊢
    by_cases he : q' = q
    · rw [if_pos he] at h
      cases h
    · rw [if_neg he] at h ⊢
      exact ih h

/-- Helper: the per-query node cache of GetSecrets is semantically
transparent — with any coherent cache the result is the cache-free
specification, so the cache only saves re-running queries. -/
theorem getSecretsGo_eq_spec {ν : Type} (queryFn : List Char → List ν) :
    ∀ (matchers : List (List Char × (ν → Option Secret)))
      (cache : List (List Char × List ν)), CacheOK queryFn cache →
      getSecretsGo queryFn matchers cache = secretsSpec queryFn matchers := by
  intro matchers
  induction matchers with
  | nil => intro cache _; rfl
  | cons m ms ih =>
    intro cache hc
    unfold getSecretsGo
    cases hl : lookupQ m.1 cache with
    | some ns =>
      dsimp only
      rw [hl]
      have hns : ns = queryFn m.1 := hc _ _ (lookupQ_mem _ _ _ hl)
      rw [ih cache hc]
      unfold secretsSpec
      simp [hns]
    | none =>
      dsimp only
      have hfound := lookupQ_append_self m.1 (queryFn m.1) cache hl
      rw [hfound]
      have hc1 : CacheOK queryFn (cache ++ [(m.1, queryFn m.1)]) := by
        intro q ns hmem
        rcases List.mem_append.mp hmem with hold | hnew
        · exact hc _ _ hold
        · rcases List.mem_singleton.mp hnew with h'
          injection h' with h1 h2
          subst h1
          exact h2
      rw [ih _ hc1]
      unfold secretsSpec
      simp

/-- C7 amended: (GetURLs) two runs on the same raw matches produce
finding lists of the same length, with the same urls and bodyParams in
the same order, whose queryParams lists are equal as sets — only the
internal ordering of each queryParams list may differ between runs;
(GetSecrets) two runs with any coherent node-cache states (in
particular the empty cache each call starts from) produce identical,
identically-ordered secret lists: the matcher list is fixed and the
nodeCache map is only read by key, never ranged over. -/
theorem c7_amended :
    (∀ (parse : List Char → Option GoURL)
      (q1 u1 q2 u2 : List (List Char) → List (List Char)),
      MapIter q1 → MapIter u1 → MapIter q2 → MapIter u2 →
      ∀ raw : List URLRec,
        List.Forall₂ (fun a b => a.url = b.url ∧ a.bodyParams = b.bodyParams ∧
          ∃ qa qb, a.queryParams = some qa ∧ b.queryParams = some qb ∧
            (∀ x, x ∈ qa ↔ x ∈ qb))
          (getURLs parse q1 u1 raw) (getURLs parse q2 u2 raw)) ∧
    (∀ (ν : Type) (queryFn : List Char → List ν)
      (matchers : List (List Char × (ν → Option Secret)))
      (c1 c2 : List (List Char × List ν)),
      CacheOK queryFn c1 → CacheOK queryFn c2 →
      getSecretsGo queryFn matchers c1 = getSecretsGo queryFn matchers c2) :=
  ⟨fun parse q1 u1 q2 u2 hq1 hu1 hq2 hu2 raw =>
    filterMap_align _ _ _
      (fun m => processMatch_align parse q1 u1 q2 u2 hq1 hu1 hq2 hu2 m) raw,
   fun _ queryFn matchers c1 c2 h1 h2 =>
    (getSecretsGo_eq_spec queryFn matchers c1 h1).trans
      (getSecretsGo_eq_spec queryFn matchers c2 h2).symm⟩

/-- Witness for C7 amended: the GetURLs half at the two concrete
iteration orders, and the GetSecrets half at the firebase matcher with
an empty cache versus a pre-populated coherent cache. -/
theorem c7_witness :
    List.Forall₂ (fun a b : URLRec => a.url = b.url ∧ a.bodyParams = b.bodyParams ∧
      ∃ qa qb, a.queryParams = some qa ∧ b.queryParams = some qb ∧
        (∀ x, x ∈ qa ↔ x ∈ qb))
      (getURLs goUrlParse dedupFn dedupFn [rawEx2])
      (getURLs goUrlParse dedupFn revDedupFn [rawEx2]) ∧
    getSecretsGo (fun _ => [fbGood]) [(objQuery, firebaseFn)] [] =
      getSecretsGo (fun _ => [fbGood]) [(objQuery, firebaseFn)]
        [(objQuery, [fbGood])] :=
  ⟨c7_amended.1 goUrlParse dedupFn dedupFn dedupFn revDedupFn
      dedupFn_mapIter dedupFn_mapIter dedupFn_mapIter revDedupFn_mapIter [rawEx2],
   c7_amended.2 JSObject (fun _ => [fbGood]) [(objQuery, firebaseFn)] []
      [(objQuery, [fbGood])]
      (fun _ _ h => absurd h (List.not_mem_nil _))
      (fun q ns h => by
        have h' := List.mem_singleton.mp h
        injection h' with h1 h2)⟩

/-- C8: user-pattern loading is NOT uniformly fail-fast — an invalid
regular expression inside a nested object pattern is silently
swallowed: ParseUserPatterns returns no error and the nested pattern
is loaded with a nil compiled key regex (which MatchKey treats as
match-everything). A top-level invalid regex and a pattern with no
matching criteria do abort loading with the respective errors, as the
claim states. -/
theorem c8_nested_regex_error_swallowed :
    (parseUserPatterns compileStub [nestedBadPattern]).2 = none ∧
    ((parseUserPatterns compileStub [nestedBadPattern]).1.head?.map
      (fun p => p.objectOf.map (fun q => q.reKeyOf))) = some [none] ∧
    (parseUserPatterns compileStub [topBadPattern]).2 = some .badRegex ∧
    (parseUserPatterns compileStub [noCriteriaPattern]).2 = some .noCriteria := by
  decide

end Jsluice
